import Mathlib

/-!
Shallow embedding of the fetch-and-cache core of the specbook repository,
together with proofs of its specified properties.

Embedded components:
* `src/tools/openai_rate_limiter.py` — dual sliding-window rate limiter
  (`OpenAIRateLimiter`).
* `src/lib/core/scraping.py` — stealth scraping state machine
  (`StealthScraper`).
* `src/lib/benchmarking/cache_manager.py` — three-layer HTML cache
  (`CacheManager`).

Timestamps are modelled as rationals, Python ints as `Int`/`Nat`, Python
dictionaries keyed by strings as functions `String → _` updated with
`Function.update`, and the wall clock / network / filesystem as explicit
oracle parameters.  Thread-locked critical sections execute sequentially in
the source (the limiter even sleeps while holding its lock), so a run is a
sequence of calls.
-/

namespace Specbook

/-! ## Rate limiter: `src/tools/openai_rate_limiter.py` -/

/-- `RateLimit` dataclass: rate limit configuration for a specific model. -/
structure RateLimit where
  requests_per_minute : ℕ
  tokens_per_minute : ℕ
  requests_per_day : ℕ
  batch_queue_limit : ℕ
deriving DecidableEq, Repr

/-- Default fallback entry of the `RATE_LIMITS` table. -/
def defaultRateLimit : RateLimit := ⟨500, 10000, 10000, 100000⟩

/-- The class-level `RATE_LIMITS` table (dict insertion order preserved). -/
def RATE_LIMITS : List (String × RateLimit) :=
  [ ("gpt-3.5-turbo", ⟨500, 200000, 10000, 2000000⟩)
  , ("gpt-3.5-turbo-0125", ⟨500, 200000, 10000, 2000000⟩)
  , ("gpt-3.5-turbo-1106", ⟨500, 200000, 10000, 2000000⟩)
  , ("gpt-3.5-turbo-16k", ⟨500, 200000, 10000, 2000000⟩)
  , ("gpt-3.5-turbo-instruct", ⟨3500, 90000, 10000, 200000⟩)
  , ("gpt-3.5-turbo-instruct-0914", ⟨3500, 90000, 10000, 200000⟩)
  , ("gpt-4", ⟨500, 10000, 10000, 100000⟩)
  , ("gpt-4-0613", ⟨500, 10000, 10000, 100000⟩)
  , ("gpt-4-turbo", ⟨500, 30000, 10000, 90000⟩)
  , ("gpt-4-turbo-2024-04-09", ⟨500, 30000, 10000, 90000⟩)
  , ("gpt-4-turbo-preview", ⟨500, 30000, 10000, 90000⟩)
  , ("gpt-4-0125-preview", ⟨500, 30000, 10000, 90000⟩)
  , ("gpt-4-1106-preview", ⟨500, 30000, 10000, 90000⟩)
  , ("gpt-4.1", ⟨500, 30000, 10000, 900000⟩)
  , ("gpt-4.1-2025-04-14", ⟨500, 30000, 10000, 900000⟩)
  , ("default", defaultRateLimit) ]

/-- `_get_rate_limit`: `RATE_LIMITS.get(model, RATE_LIMITS["default"])`. -/
def get_rate_limit (model : String) : RateLimit :=
  (RATE_LIMITS.lookup model).getD defaultRateLimit

/-- The mutable state of one `OpenAIRateLimiter` instance.
`request_history[model]` is a list of admission timestamps,
`token_history[model]` a list of `(timestamp, tokens)` pairs, and
`current_requests` / `current_tokens` the derived counters. -/
structure LimiterState where
  request_history : String → List ℚ
  token_history : String → List (ℚ × ℤ)
  current_requests : String → ℕ
  current_tokens : String → ℤ

/-- `__init__`: all histories empty (`defaultdict(list)` / `defaultdict(int)`). -/
def LimiterState.init : LimiterState :=
  ⟨fun _ => [], fun _ => [], fun _ => 0, fun _ => 0⟩

/-- `_clean_old_entries(model, current_time)`: drop entries whose timestamp is
not strictly greater than `current_time - 60`, then recompute both counters. -/
def clean_old_entries (s : LimiterState) (model : String) (t : ℚ) : LimiterState :=
  let cutoff := t - 60
  let rh := (s.request_history model).filter (fun ts => decide (cutoff < ts))
  let th := (s.token_history model).filter (fun p => decide (cutoff < p.1))
  { request_history := Function.update s.request_history model rh
  , token_history := Function.update s.token_history model th
  , current_requests := Function.update s.current_requests model rh.length
  , current_tokens := Function.update s.current_tokens model ((th.map Prod.snd).sum) }

/-- Smallest element of a list of timestamps (Python `min`; `none` on `[]`,
where Python would raise `ValueError`). -/
def listMin : List ℚ → Option ℚ
  | [] => none
  | a :: rest =>
    some (match listMin rest with
          | none => a
          | some m => min a m)

/-- Stable insertion into a list sorted by timestamp
(`sorted(..., key=lambda x: x[0])`). -/
def insertByTime (p : ℚ × ℤ) : List (ℚ × ℤ) → List (ℚ × ℤ)
  | [] => [p]
  | q :: rest => if q.1 ≤ p.1 then q :: insertByTime p rest else p :: q :: rest

/-- Stable sort of the token history by timestamp. -/
def sortByTime (l : List (ℚ × ℤ)) : List (ℚ × ℤ) :=
  l.foldr insertByTime []

/-- The TPM loop of `_calculate_wait_time`: walk the sorted token history
accumulating tokens until `needed_tokens` are covered, and return the wait
until that entry leaves the window (if positive); `break` afterwards. -/
def tpmWaitList (t : ℚ) (needed : ℤ) : List (ℚ × ℤ) → List ℚ
  | [] => []
  | (ts, tok) :: rest =>
    if needed ≤ tok then
      (if 0 < 60 - (t - ts) then [60 - (t - ts)] else [])
    else tpmWaitList t (needed - tok) rest

/-- `_calculate_wait_time(model, estimated_tokens)`: cleans old entries, then
returns the wait (max of the RPM wait and the TPM wait, `0` if neither
constraint binds) together with the cleaned state. -/
def calculate_wait_time (s : LimiterState) (model : String) (estimated : ℤ)
    (t : ℚ) : ℚ × LimiterState :=
  let rl := get_rate_limit model
  let s1 := clean_old_entries s model t
  let rpmWaits : List ℚ :=
    if rl.requests_per_minute ≤ s1.current_requests model then
      let oldest := (listMin (s1.request_history model)).getD 0
      if 0 < 60 - (t - oldest) then [60 - (t - oldest)] else []
    else []
  let tpmWaits : List ℚ :=
    if (rl.tokens_per_minute : ℤ) < s1.current_tokens model + estimated then
      if s1.token_history model = [] then []
      else
        let needed := s1.current_tokens model + estimated - rl.tokens_per_minute
        tpmWaitList t needed (sortByTime (s1.token_history model))
    else []
  ((rpmWaits ++ tpmWaits).foldr max 0, s1)

/-- One call to `acquire(model, estimated_tokens)`, with the wall-clock
readings it observes: `t` when `_calculate_wait_time` reads the clock, `tc`
when `_clean_old_entries` runs after the sleep, `tr` when the admission is
recorded. -/
structure AcqCall where
  model : String
  estimated : ℤ
  t : ℚ
  tc : ℚ
  tr : ℚ

/-- The "Record the request / Update counters" block at the end of `acquire`:
append the admission timestamp and the estimated tokens, bump both counters. -/
def record_admission (s : LimiterState) (model : String) (t : ℚ) (est : ℤ) :
    LimiterState :=
  { request_history :=
      Function.update s.request_history model (s.request_history model ++ [t])
  , token_history :=
      Function.update s.token_history model (s.token_history model ++ [(t, est)])
  , current_requests :=
      Function.update s.current_requests model (s.current_requests model + 1)
  , current_tokens :=
      Function.update s.current_tokens model (s.current_tokens model + est) }

/-- `acquire`: compute the wait, sleep, re-clean if a wait happened, then
record the admission timestamp and estimated tokens and bump both counters. -/
def acquire (s : LimiterState) (c : AcqCall) : LimiterState :=
  let ws := calculate_wait_time s c.model c.estimated c.t
  let s1 := ws.2
  let s2 := if 0 < ws.1 then clean_old_entries s1 c.model c.tc else s1
  record_admission s2 c.model c.tr c.estimated

/-- `update_actual_tokens(model, actual_tokens, estimated_tokens)`: if the
token history is non-empty, overwrite the cost of its most recent entry
(keeping its timestamp) and adjust the counter by `actual - estimated`. -/
def update_actual_tokens (s : LimiterState) (model : String)
    (actual estimated : ℤ) : LimiterState :=
  match (s.token_history model).getLast? with
  | none => s
  | some last =>
    { s with
      token_history :=
        Function.update s.token_history model
          ((s.token_history model).dropLast ++ [(last.1, actual)])
      current_tokens :=
        Function.update s.current_tokens model
          (s.current_tokens model - estimated + actual) }

/-- The statistics dictionary returned by `get_usage_stats`. -/
structure UsageStats where
  model : String
  current_requests : ℕ
  max_requests : ℕ
  current_tokens : ℤ
  max_tokens : ℕ
  request_utilization : ℚ
  token_utilization : ℚ

/-- `get_usage_stats(model)`: cleans old entries at the current time and
reports the counters against the configured limits. -/
def get_usage_stats (s : LimiterState) (model : String) (t : ℚ) :
    UsageStats × LimiterState :=
  let s1 := clean_old_entries s model t
  let rl := get_rate_limit model
  ( { model := model
    , current_requests := s1.current_requests model
    , max_requests := rl.requests_per_minute
    , current_tokens := s1.current_tokens model
    , max_tokens := rl.tokens_per_minute
    , request_utilization := (s1.current_requests model : ℚ) / rl.requests_per_minute
    , token_utilization := (s1.current_tokens model : ℚ) / rl.tokens_per_minute }
  , s1 )

/-- Derived-counter coherence: each counter equals the summary of the history
it tracks. -/
def Coherent (s : LimiterState) : Prop :=
  ∀ key : String,
    s.current_requests key = (s.request_history key).length ∧
    s.current_tokens key = ((s.token_history key).map Prod.snd).sum

/-- Run a sequence of `acquire` calls. -/
def runAcquires : LimiterState → List AcqCall → LimiterState
  | s, [] => s
  | s, c :: rest => runAcquires (acquire s c) rest

/-- Ghost log: the admission timestamps recorded for `key` by a call list. -/
def admissionLog (key : String) (calls : List AcqCall) : List ℚ :=
  (calls.filter (fun c => decide (c.model = key))).map AcqCall.tr

/-- Clock discipline of one `acquire` call starting no earlier than `now`:
the clock is monotone across its three readings and the recorded admission
happens only after the computed wait has fully elapsed. -/
def WFCall (s : LimiterState) (now : ℚ) (c : AcqCall) : Prop :=
  now ≤ c.t ∧ c.t ≤ c.tc ∧ c.tc ≤ c.tr ∧
    c.t + (calculate_wait_time s c.model c.estimated c.t).1 ≤ c.tr

/-- Clock discipline of a chained sequence of `acquire` calls. -/
def WFCalls : LimiterState → ℚ → List AcqCall → Prop
  | _, _, [] => True
  | s, now, c :: rest => WFCall s now c ∧ WFCalls (acquire s c) c.tr rest

/-- Invariant tying the limiter's internal request history for `key` to the
ghost log `L` of all admissions ever recorded for `key`: every trailing
60-second slice of `L` holds at most `R` admissions, all admissions lie in
the past, and on any window ending at or after `now` the (lazily purged)
internal history and the full log agree. -/
def ReqInv (key : String) (R : ℕ) (s : LimiterState) (now : ℚ) (L : List ℚ) :
    Prop :=
  (∀ T : ℚ, L.countP (fun e => decide (T - 60 < e ∧ e ≤ T)) ≤ R) ∧
  (∀ e ∈ L, e ≤ now) ∧
  (∀ T : ℚ, now ≤ T →
    (s.request_history key).filter (fun e => decide (T - 60 < e))
      = L.filter (fun e => decide (T - 60 < e)))

/-! ## Stealth scraper: `src/lib/core/scraping.py` -/

/-- `ScrapingMethod` enum. -/
inductive ScrapingMethod where
  | requests
  | firecrawl
  | auto
deriving DecidableEq, Repr

/-- `PageIssue` enum. -/
inductive PageIssue where
  | bot_detected
  | captcha_present
  | empty_content
  | error_page
  | redirect_loop
  | timeout
  | javascript_required
deriving DecidableEq, Repr

/-- `ScrapeResult` pydantic model, with its field defaults. -/
structure ScrapeResult where
  success : Bool
  status_code : Option ℤ := none
  content : Option String := none
  final_url : String
  methods_tried : Finset ScrapingMethod := ∅
  final_method : ScrapingMethod
  error_reason : Option String := none
  page_issues : List PageIssue := []
  url : String
  scrape_time : ℚ := 0
  attempts : ℕ := 1
  warnings : List String := []

/-- `needle` is a prefix of `hay` (character lists). -/
def listPrefixEq : List Char → List Char → Bool
  | [], _ => true
  | _ :: _, [] => false
  | a :: as, b :: bs => a == b && listPrefixEq as bs

/-- Python substring test `needle in hay` over character lists. -/
def containsSub (needle : List Char) : List Char → Bool
  | [] => needle.isEmpty
  | h :: t => listPrefixEq needle (h :: t) || containsSub needle t

/-- `str.lower()` of the content, as a character list. -/
def lowerChars (s : String) : List Char := s.data.map Char.toLower

/-- `len(content.strip())`: length after trimming whitespace at both ends. -/
def strippedLen (s : String) : ℕ :=
  (((s.data.dropWhile Char.isWhitespace).reverse.dropWhile Char.isWhitespace).reverse).length

/-- The active entries of `bot_indicators` in `is_bot_detected` (the rest of
the list is commented out in the source). -/
def bot_indicators : List String :=
  [ "pardon our interruption"
  , "you were browsing something about your browser made us think you were a bot" ]

/-- `is_bot_detected(html_content)`: case-insensitive substring scan of the
content against the active bot indicators. -/
def is_bot_detected (html_content : String) : Bool :=
  let content_lower := lowerChars html_content
  bot_indicators.any (fun ind => containsSub ind.data content_lower)

/-- `captcha_indicators` dict of `is_captcha_present` (insertion order). -/
def captcha_indicators : List (String × List String) :=
  [ ("recaptcha",
      [ "recaptcha", "g-recaptcha", "grecaptcha", "google.com/recaptcha"
      , "recaptcha-checkbox", "recaptcha-anchor", "i\x27m not a robot" ])
  , ("hcaptcha",
      [ "hcaptcha", "h-captcha", "hcaptcha.com", "hcaptcha-checkbox" ])
  , ("cloudflare",
      [ "cf-challenge", "cloudflare", "cf-ray", "checking your browser"
      , "cloudflare-static", "cf-browser-verification"
      , "please wait while we check your browser", "ddos protection by cloudflare" ])
  , ("incapsula",
      [ "incapsula", "incident_id", "request unsuccessful", "main-iframe"
      , "_incapsula_resource", "swudnsai", "xinfo" ])
  , ("funcaptcha",
      [ "funcaptcha", "arkoselabs", "arkose", "fun-captcha" ])
  , ("other",
      [ "captcha", "security check", "verify you are human"
      , "prove you are not a robot", "complete the challenge"
      , "solve the puzzle", "anti-bot verification" ]) ]

/-- Return value of `is_captcha_present`. -/
structure CaptchaCheck where
  present : Bool
  ctype : Option String
  all_types : List String
  indicators : List String
deriving DecidableEq, Repr

/-- `is_captcha_present(html_content)`: collect every matching indicator
across all vendor groups, and the list of group names with at least one
match (first match registers the group). -/
def is_captcha_present (html_content : String) : CaptchaCheck :=
  let content_lower := lowerChars html_content
  let found_indicators :=
    (captcha_indicators.map
      (fun p => p.2.filter (fun ind => containsSub ind.data content_lower))).flatten
  let captcha_types :=
    (captcha_indicators.filter
      (fun p => p.2.any (fun ind => containsSub ind.data content_lower))).map Prod.fst
  { present := decide (0 < found_indicators.length)
  , ctype := captcha_types.head?
  , all_types := captcha_types
  , indicators := found_indicators }

/-- What one iteration of the DIRECT attempt loop observes from the network:
either `requests.RequestException` (whose optional response carries a status
code) or a response with a status and a body.  `dur` is the wall-clock time
the iteration consumes, including the randomized retry delay. -/
inductive AttemptEvent where
  | exc (msg : String) (respStatus : Option ℤ) (dur : ℚ)
  | resp (status : ℤ) (body : String) (finalUrl : String) (dur : ℚ)

/-- The DIRECT attempt loop of `scrape_with_requests`, with `remaining`
iterations left out of `retries` and `elapsed` seconds consumed so far.
Stealth-profile rotation and the synthetic `Referer` affect only the request
headers, which the network oracle already accounts for in each event. -/
def swrGo (url : String) (trace : ℕ → AttemptEvent) (retries : ℕ) :
    ℕ → ℚ → ScrapeResult
  | 0, elapsed =>
    { url := url, success := false, error_reason := some "Max retries exceeded"
    , status_code := some 500, final_url := url
    , methods_tried := {ScrapingMethod.requests}, final_method := .requests
    , scrape_time := elapsed, attempts := retries }
  | remaining + 1, elapsed =>
    let attempt := retries - (remaining + 1)
    match trace attempt with
    | .exc msg respStatus dur =>
      if remaining = 0 then
        { url := url, success := false, error_reason := some msg
        , status_code := some (respStatus.getD 500), final_url := url
        , methods_tried := {ScrapingMethod.requests}, final_method := .requests
        , scrape_time := elapsed + dur, attempts := attempt + 1 }
      else swrGo url trace retries remaining (elapsed + dur)
    | .resp status body finalUrl dur =>
      if status = 404 then
        { url := url, success := false, error_reason := some "Page not found"
        , status_code := some 404, final_url := finalUrl
        , methods_tried := {ScrapingMethod.requests}, final_method := .requests
        , scrape_time := elapsed + dur, attempts := attempt + 1 }
      else if 400 ≤ status then
        { url := url, success := false
        , error_reason := some ("HTTP " ++ toString status ++ " error")
        , status_code := some status, final_url := finalUrl
        , methods_tried := {ScrapingMethod.requests}, final_method := .requests
        , scrape_time := elapsed + dur, attempts := attempt + 1 }
      else if is_bot_detected body then
        if remaining = 0 then
          { url := url, success := false, error_reason := some "Bot detection active"
          , status_code := some 403, final_url := finalUrl
          , methods_tried := {ScrapingMethod.requests}, final_method := .requests
          , scrape_time := elapsed + dur, attempts := attempt + 1
          , page_issues := [PageIssue.bot_detected] }
        else swrGo url trace retries remaining (elapsed + dur)
      else
        { url := url, success := true, content := some body
        , status_code := some status, final_url := finalUrl
        , methods_tried := {ScrapingMethod.requests}, final_method := .requests
        , scrape_time := elapsed + dur, attempts := attempt + 1
        , page_issues := if strippedLen body < 100 then [PageIssue.empty_content] else [] }

/-- `scrape_with_requests(url, retries=3)`. -/
def scrape_with_requests (url : String) (trace : ℕ → AttemptEvent)
    (retries : ℕ) : ScrapeResult :=
  swrGo url trace retries retries 0

/-- What one Firecrawl SDK call observes: a successful response carrying
`rawHtml`, a response with an `error` field, a response with neither flag
(malformed), or a raised exception with its type name and message. -/
inductive FirecrawlEvent where
  | success (rawHtml : String) (dur : ℚ)
  | error (msg : String) (dur : ℚ)
  | malformed (dur : ℚ)
  | exc (errType : String) (msg : String) (dur : ℚ)

/-- `scrape_with_firecrawl(url)`: acquire the semaphore and the internal rate
limit (together consuming `waitDur` seconds), fail fast if no API key is
configured, then wrap every SDK outcome — success, error field, malformed
response, or exception — into a `ScrapeResult`. -/
def scrape_with_firecrawl (key : Option String) (url : String) (waitDur : ℚ)
    (ev : FirecrawlEvent) : ScrapeResult :=
  match key with
  | none =>
    { url := url, success := false, status_code := some 500
    , error_reason := some "Firecrawl API key not provided"
    , methods_tried := {ScrapingMethod.firecrawl}, final_method := .firecrawl
    , final_url := url, scrape_time := waitDur }
  | some _ =>
    match ev with
    | .success rawHtml dur =>
      { url := url, success := true, status_code := some 200
      , content := some rawHtml
      , methods_tried := {ScrapingMethod.firecrawl}, final_method := .firecrawl
      , final_url := url, scrape_time := waitDur + dur }
    | .error msg dur =>
      { url := url, success := false, status_code := some 500
      , error_reason := some msg
      , methods_tried := {ScrapingMethod.firecrawl}, final_method := .firecrawl
      , final_url := url, scrape_time := waitDur + dur }
    | .malformed dur =>
      { url := url, success := false, status_code := some 500
      , error_reason := some "Unexpected Firecrawl response format"
      , methods_tried := {ScrapingMethod.firecrawl}, final_method := .firecrawl
      , final_url := url, scrape_time := waitDur + dur }
    | .exc errType msg dur =>
      { url := url, success := false, status_code := some 500
      , error_reason := some (errType ++ ": " ++ msg)
      , methods_tried := {ScrapingMethod.firecrawl}, final_method := .firecrawl
      , final_url := url, scrape_time := waitDur + dur }

/-- `scrape_url(url, method)`: dispatch on the method; in AUTO mode run the
DIRECT loop, return immediately on 404, return on clean success, otherwise
fall back to Firecrawl when an API key is configured, merging
`methods_tried`, `attempts`, cumulative `scrape_time` and the DIRECT
attempt's `page_issues` into the Firecrawl outcome. -/
def scrape_url (key : Option String) (url : String) (method : ScrapingMethod)
    (trace : ℕ → AttemptEvent) (retries : ℕ) (fcWait : ℚ)
    (fev : FirecrawlEvent) : ScrapeResult :=
  match method with
  | .firecrawl => scrape_with_firecrawl key url fcWait fev
  | .requests => scrape_with_requests url trace retries
  | .auto =>
    let request_result := scrape_with_requests url trace retries
    if request_result.status_code = some 404 then
      request_result
    else if request_result.success = true ∧
        PageIssue.bot_detected ∉ request_result.page_issues then
      request_result
    else
      match key with
      | some k =>
        let firecrawl_result := scrape_with_firecrawl (some k) url fcWait fev
        { firecrawl_result with
          methods_tried := firecrawl_result.methods_tried ∪ request_result.methods_tried
        , attempts := firecrawl_result.attempts + request_result.attempts
        , scrape_time := request_result.scrape_time + firecrawl_result.scrape_time
        , page_issues := request_result.page_issues }
      | none => request_result

/-! ## Cache manager: `src/lib/benchmarking/cache_manager.py` -/

/-- One row of the `cache_entries` SQLite table. -/
structure CacheRow where
  url : String
  cache_key : String
  file_path : String
  content_size : ℕ
  scrape_method : String
  status_code : ℤ
  created_at : ℚ
  last_accessed : ℚ
  access_count : ℕ
  from_llm_results : Bool

/-- The optional `metadata` dict accepted by `store_html`. -/
structure CacheMeta where
  scrape_method : Option String := none
  status_code : Option ℤ := none
  from_llm_results : Option Bool := none

/-- The three cache layers: the in-memory dict `_memory_cache`, the content
files on disk (path → content, `none` when absent or unreadable), and the
SQLite index (url → row). -/
structure CacheState where
  memory_cache : String → Option String
  files : String → Option String
  db : String → Option CacheRow

/-- A fresh `CacheManager`: empty memory cache, no files, empty table. -/
def CacheState.init : CacheState :=
  ⟨fun _ => none, fun _ => none, fun _ => none⟩

/-- `self.cache_dir / f"{cache_key}.html"` for the url's cache key, where
`hash` models the deterministic `md5` hex digest of `get_cache_key`. -/
def cache_file_path (hash : String → String) (dir url : String) : String :=
  dir ++ "/" ++ hash url ++ ".html"

/-- Which step of `store_html` fails, if any: the content-file write
(`file_path.write_text`) or the index upsert (`INSERT OR REPLACE`). -/
inductive StoreEvent where
  | ok
  | fileWriteFails
  | dbWriteFails
deriving DecidableEq, Repr

/-- `store_html(url, html_content, metadata)`: write the content file, upsert
the index row, then update the memory cache and return `True`; any exception
on the way is caught and turns into `False` with the remaining steps
skipped. -/
def store_html (hash : String → String) (dir : String) (s : CacheState)
    (url content : String) (md : Option CacheMeta) (tnow : ℚ)
    (ev : StoreEvent) : Bool × CacheState :=
  let cache_key := hash url
  let file_path := cache_file_path hash dir url
  match ev with
  | .fileWriteFails => (false, s)
  | .dbWriteFails =>
    (false, { s with files := Function.update s.files file_path (some content) })
  | .ok =>
    let row : CacheRow :=
      { url := url, cache_key := cache_key, file_path := file_path
      , content_size := content.length
      , scrape_method := (md.bind (fun m => m.scrape_method)).getD "unknown"
      , status_code := (md.bind (fun m => m.status_code)).getD 200
      , created_at := tnow, last_accessed := tnow, access_count := 0
      , from_llm_results := (md.bind (fun m => m.from_llm_results)).getD false }
    (true,
      { memory_cache := Function.update s.memory_cache url (some content)
      , files := Function.update s.files file_path (some content)
      , db := Function.update s.db url (some row) })

/-- `_update_access_stats(url)`: bump `last_accessed` and `access_count` of
the url's row (SQL `UPDATE` is a no-op when the row is absent). -/
def update_access_stats (s : CacheState) (url : String) (tnow : ℚ) : CacheState :=
  match s.db url with
  | none => s
  | some row =>
    let row2 : CacheRow :=
      { row with last_accessed := tnow, access_count := row.access_count + 1 }
    { s with db := Function.update s.db url (some row2) }

/-- `get_cached_html(url)`: memory hit first; else look up the index and read
the referenced file, populating the memory cache on success; an absent row,
or a missing/unreadable file, yields `None`. -/
def get_cached_html (s : CacheState) (url : String) (tnow : ℚ) :
    Option String × CacheState :=
  match s.memory_cache url with
  | some content => (some content, update_access_stats s url tnow)
  | none =>
    match s.db url with
    | none => (none, s)
    | some row =>
      match s.files row.file_path with
      | none => (none, s)
      | some content =>
        let s1 := { s with memory_cache := Function.update s.memory_cache url (some content) }
        (some content, update_access_stats s1 url tnow)

/-! ## Concrete states used to instantiate the theorems -/

/-- A limiter state holding one admitted call for key `"m"` with estimated
cost `50` at time `0`, with coherent counters. -/
def wTokState : LimiterState :=
  ⟨ fun _ => []
  , fun k => if k = "m" then [((0 : ℚ), (50 : ℤ))] else []
  , fun _ => 0
  , fun k => if k = "m" then 50 else 0 ⟩

/-- A response body longer than the empty-content threshold that contains the
vendor fingerprint `"cloudflare"`. -/
def cexBody : String :=
  String.mk (List.replicate 11 "cloudflare ".data).flatten

/-! ## Helper lemmas -/

theorem calculate_wait_time_snd (s : LimiterState) (m : String) (e : ℤ) (t : ℚ) :
    (calculate_wait_time s m e t).2 = clean_old_entries s m t := rfl

theorem get_usage_stats_snd (s : LimiterState) (m : String) (t : ℚ) :
    (get_usage_stats s m t).2 = clean_old_entries s m t := rfl

theorem coherent_clean (s : LimiterState) (model : String) (t : ℚ)
    (h : Coherent s) : Coherent (clean_old_entries s model t) := by
  intro key
  by_cases hk : key = model
  · subst hk; simp [clean_old_entries, Function.update_apply]
  · simp [clean_old_entries, Function.update_apply, hk, h key]

theorem coherent_record (s : LimiterState) (model : String) (t : ℚ) (est : ℤ)
    (h : Coherent s) : Coherent (record_admission s model t est) := by
  intro key
  by_cases hk : key = model
  · subst hk
    simp [record_admission, Function.update_apply, (h key).1, (h key).2]
  · simp [record_admission, Function.update_apply, hk, h key]

theorem coherent_acquire (s : LimiterState) (c : AcqCall) (h : Coherent s) :
    Coherent (acquire s c) := by
  have h1 : Coherent (clean_old_entries s c.model c.t) := coherent_clean s c.model c.t h
  simp only [acquire, calculate_wait_time_snd]
  apply coherent_record
  split
  · exact coherent_clean _ _ _ h1
  · exact h1

theorem coherent_update (s : LimiterState) (model : String)
    (actual estimated : ℤ) (ts : ℚ)
    (hlast : (s.token_history model).getLast? = some (ts, estimated))
    (h : Coherent s) : Coherent (update_actual_tokens s model actual estimated) := by
  have hne : s.token_history model ≠ [] := by
    intro h0; rw [h0] at hlast; simp at hlast
  have hgl : (s.token_history model).getLast hne = (ts, estimated) := by
    rw [List.getLast?_eq_getLast _ hne] at hlast
    exact Option.some.inj hlast
  have hdecomp : (s.token_history model).dropLast ++ [(ts, estimated)]
      = s.token_history model := by
    conv_rhs => rw [← List.dropLast_append_getLast hne]
    rw [hgl]
  intro key
  by_cases hk : key = model
  · subst hk
    have hsum : ((s.token_history key).map Prod.snd).sum
        = (((s.token_history key).dropLast).map Prod.snd).sum + estimated := by
      conv_lhs => rw [← hdecomp]
      simp
    refine ⟨?_, ?_⟩
    · simp [update_actual_tokens, hlast, Function.update_apply, (h key).1]
    · simp only [update_actual_tokens, hlast, Function.update_apply]
      simp only [if_true]
      rw [(h key).2, hsum]
      simp only [List.map_append, List.sum_append, List.map_cons, List.map_nil,
        List.sum_cons, List.sum_nil, add_zero]
      ring
  · simp only [update_actual_tokens, hlast]
    simp [Function.update_apply, hk, h key]

theorem countP_congr_mem (l : List ℚ) (p q : ℚ → Bool)
    (h : ∀ a ∈ l, p a = q a) : l.countP p = l.countP q := by
  induction l with
  | nil => rfl
  | cons a t ih =>
    rw [List.countP_cons, List.countP_cons, ih (fun b hb => h b (by simp [hb])),
      h a (by simp)]

theorem countP_lt_length_of_mem_not (l : List ℚ) (p : ℚ → Bool) (a : ℚ)
    (ha : a ∈ l) (hpa : p a = false) : l.countP p < l.length := by
  rw [List.countP_eq_length_filter]
  rw [List.length_filter_lt_length_iff_exists]
  exact ⟨a, ha, by simp [hpa]⟩

theorem listMin_spec (l : List ℚ) (m : ℚ) (h : listMin l = some m) :
    m ∈ l ∧ ∀ e ∈ l, m ≤ e := by
  induction l generalizing m with
  | nil => simp [listMin] at h
  | cons a t ih =>
    rw [listMin] at h
    cases ht : listMin t with
    | none =>
      have : t = [] := by cases t with
        | nil => rfl
        | cons b u => rw [listMin] at ht; simp at ht
      subst this
      rw [ht] at h
      simp at h
      subst h
      simp
    | some m0 =>
      rw [ht] at h
      simp at h
      obtain ⟨hm0, hle⟩ := ih m0 ht
      constructor
      · rcases min_cases a m0 with ⟨he, _⟩ | ⟨he, _⟩ <;> rw [← h, he]
        · simp
        · simp [hm0]
      · intro e he
        rcases List.mem_cons.mp he with rfl | he2
        · rw [← h]; exact min_le_left _ _
        · rw [← h]
          exact le_trans (min_le_right _ _) (hle e he2)

theorem listMin_isSome (l : List ℚ) (h : l ≠ []) : ∃ m, listMin l = some m := by
  cases l with
  | nil => exact absurd rfl h
  | cons a t => exact ⟨_, rfl⟩

theorem le_foldr_max (l : List ℚ) (a : ℚ) (h : a ∈ l) : a ≤ l.foldr max 0 := by
  induction l with
  | nil => simp at h
  | cons b t ih =>
    rcases List.mem_cons.mp h with rfl | h2
    · exact le_max_left _ _
    · exact le_trans (ih h2) (le_max_right _ _)

theorem foldr_max_nonneg (l : List ℚ) : 0 ≤ l.foldr max 0 := by
  induction l with
  | nil => simp
  | cons b t ih => exact le_trans ih (le_max_right _ _)

theorem filter_recent_absorb (l : List ℚ) (u T : ℚ) (h : u ≤ T) :
    (l.filter (fun e => decide (u - 60 < e))).filter (fun e => decide (T - 60 < e))
      = l.filter (fun e => decide (T - 60 < e)) := by
  rw [List.filter_filter]
  apply List.filter_congr
  intro a _
  by_cases hT : T - 60 < a
  · have hu : u - 60 < a := lt_of_le_of_lt (by linarith) hT
    simp [hT, hu]
  · simp [hT]

theorem countP_window_eq_recent (l : List ℚ) (T : ℚ) (h : ∀ e ∈ l, e ≤ T) :
    l.countP (fun e => decide (T - 60 < e ∧ e ≤ T))
      = l.countP (fun e => decide (T - 60 < e)) := by
  apply countP_congr_mem
  intro a ha
  simp [h a ha]

theorem countP_recent_anti (l : List ℚ) (u T : ℚ) (h : u ≤ T) :
    l.countP (fun e => decide (T - 60 < e))
      ≤ l.countP (fun e => decide (u - 60 < e)) := by
  apply List.countP_mono_left
  intro a _ hpa
  simp only [decide_eq_true_eq] at hpa ⊢
  linarith

theorem clean_rh (s : LimiterState) (m : String) (t : ℚ) :
    (clean_old_entries s m t).request_history m
      = (s.request_history m).filter (fun e => decide (t - 60 < e)) := by
  simp [clean_old_entries, Function.update_apply]

theorem clean_cr (s : LimiterState) (m : String) (t : ℚ) :
    (clean_old_entries s m t).current_requests m
      = ((s.request_history m).filter (fun e => decide (t - 60 < e))).length := by
  simp [clean_old_entries, Function.update_apply]

theorem lookup_mem_rl (l : List (String × RateLimit)) (k : String) (r : RateLimit)
    (h : List.lookup k l = some r) : (k, r) ∈ l := by
  induction l with
  | nil => simp [List.lookup] at h
  | cons p t ih =>
    cases p with
    | mk a b =>
      by_cases hk : k = a
      · subst hk
        simp [List.lookup] at h
        simp [h]
      · have hb : (k == a) = false := by simp [hk]
        have heq : List.lookup k ((a, b) :: t) = List.lookup k t := by
          simp [List.lookup, hb]
        rw [heq] at h
        exact List.mem_cons_of_mem _ (ih h)

theorem rpm_pos (key : String) : 1 ≤ (get_rate_limit key).requests_per_minute := by
  unfold get_rate_limit
  cases hl : List.lookup key RATE_LIMITS with
  | none => simp [defaultRateLimit]
  | some r =>
    have hmem := lookup_mem_rl RATE_LIMITS key r hl
    have hall : ∀ p ∈ RATE_LIMITS, 500 ≤ p.2.requests_per_minute := by decide
    have h2 : 500 ≤ r.requests_per_minute := by simpa using hall _ hmem
    simp only [Option.getD_some]
    omega

theorem wait_ge_rpm (s : LimiterState) (key : String) (est : ℤ) (t m : ℚ)
    (hlen : (get_rate_limit key).requests_per_minute
      ≤ ((s.request_history key).filter (fun e => decide (t - 60 < e))).length)
    (hm : listMin ((s.request_history key).filter (fun e => decide (t - 60 < e)))
      = some m)
    (hpos : 0 < 60 - (t - m)) :
    60 - (t - m) ≤ (calculate_wait_time s key est t).1 := by
  have hs1cr := clean_cr s key t
  have hs1rh := clean_rh s key t
  simp only [calculate_wait_time]
  rw [hs1cr, hs1rh, hm]
  simp only [Option.getD_some]
  rw [if_pos hlen, if_pos hpos]
  exact le_foldr_max _ _ (List.mem_append_left _ (by simp))

theorem reqInv_step (key : String) (s : LimiterState) (now : ℚ) (L : List ℚ)
    (c : AcqCall)
    (hinv : ReqInv key (get_rate_limit key).requests_per_minute s now L)
    (hwf : WFCall s now c) :
    ReqInv key (get_rate_limit key).requests_per_minute (acquire s c) c.tr
      (L ++ if c.model = key then [c.tr] else []) := by
  obtain ⟨hbound, hpast, hagree⟩ := hinv
  obtain ⟨hnt, htc, htr, hsleep⟩ := hwf
  by_cases hmk : c.model = key
  case neg =>
    rw [if_neg hmk, List.append_nil]
    have hk : key ≠ c.model := fun h => hmk h.symm
    refine ⟨hbound, ?_, ?_⟩
    · intro e he
      exact le_trans (hpast e he) (by linarith)
    · intro T hT
      have hrh : (acquire s c).request_history key = s.request_history key := by
        by_cases hw : 0 < (calculate_wait_time s c.model c.estimated c.t).1
        · simp only [acquire, calculate_wait_time_snd, if_pos hw, record_admission]
          simp [clean_old_entries, Function.update_apply, hk]
        · simp only [acquire, calculate_wait_time_snd, if_neg hw, record_admission]
          simp [clean_old_entries, Function.update_apply, hk]
      rw [hrh]
      exact hagree T (by linarith)
  case pos =>
    subst hmk
    rw [if_pos rfl]
    refine ⟨?_, ?_, ?_⟩
    · -- window bound on the extended log
      intro T
      rw [List.countP_append]
      by_cases hin : T - 60 < c.tr ∧ c.tr ≤ T
      · have h1 : ([c.tr].countP (fun e => decide (T - 60 < e ∧ e ≤ T))) = 1 := by
          simp [List.countP_cons, hin.1, hin.2]
        rw [h1]
        have hLle : ∀ e ∈ L, e ≤ T :=
          fun e he => le_trans (hpast e he) (by linarith [hin.2])
        rw [countP_window_eq_recent L T hLle]
        have h2 : L.countP (fun e => decide (T - 60 < e))
            ≤ L.countP (fun e => decide (c.tr - 60 < e)) :=
          countP_recent_anti L c.tr T hin.2
        have hFtlen : ((s.request_history c.model).filter
            (fun e => decide (c.t - 60 < e))).length
            ≤ (get_rate_limit c.model).requests_per_minute := by
          have hb := hbound c.t
          rw [countP_window_eq_recent L c.t
            (fun e he => le_trans (hpast e he) hnt)] at hb
          rw [List.countP_eq_length_filter] at hb
          rw [hagree c.t hnt]
          exact hb
        by_cases hlen : (get_rate_limit c.model).requests_per_minute
            ≤ ((s.request_history c.model).filter
              (fun e => decide (c.t - 60 < e))).length
        · -- request constraint saturated: the computed wait pushed c.tr past
          -- the expiry of the oldest windowed admission
          have hRpos := rpm_pos c.model
          have hne : (s.request_history c.model).filter
              (fun e => decide (c.t - 60 < e)) ≠ [] := by
            intro h0
            rw [h0] at hlen
            simp at hlen
            omega
          obtain ⟨m, hm⟩ := listMin_isSome _ hne
          obtain ⟨hmmem, hmle⟩ := listMin_spec _ m hm
          have hmrec : c.t - 60 < m := by
            have := (List.mem_filter.mp hmmem).2
            simpa using this
          have hpos : 0 < 60 - (c.t - m) := by linarith
          have hwge := wait_ge_rpm s c.model c.estimated c.t m hlen hm hpos
          have htrm : m ≤ c.tr - 60 := by linarith
          have h3 : L.countP (fun e => decide (c.tr - 60 < e))
              ≤ L.countP (fun e => decide (m < e)) := by
            apply List.countP_mono_left
            intro a _ hpa
            simp only [decide_eq_true_eq] at hpa ⊢
            linarith
          have h4 : L.countP (fun e => decide (m < e))
              = ((s.request_history c.model).filter
                (fun e => decide (c.t - 60 < e))).countP
                  (fun e => decide (m < e)) := by
            rw [hagree c.t hnt, List.countP_filter]
            apply countP_congr_mem
            intro a _
            by_cases hma : m < a
            · have hta : c.t - 60 < a := lt_trans hmrec hma
              simp [hma, hta]
            · simp [hma]
          have h5 : ((s.request_history c.model).filter
              (fun e => decide (c.t - 60 < e))).countP
                (fun e => decide (m < e))
              < ((s.request_history c.model).filter
                (fun e => decide (c.t - 60 < e))).length :=
            countP_lt_length_of_mem_not _ _ m hmmem (by simp)
          omega
        · -- request constraint not saturated at time c.t
          push_neg at hlen
          have h3 : L.countP (fun e => decide (c.tr - 60 < e))
              ≤ L.countP (fun e => decide (c.t - 60 < e)) :=
            countP_recent_anti L c.t c.tr (by linarith)
          have h4 : L.countP (fun e => decide (c.t - 60 < e))
              = ((s.request_history c.model).filter
                (fun e => decide (c.t - 60 < e))).length := by
            rw [List.countP_eq_length_filter, hagree c.t hnt]
          omega
      · have h1 : ([c.tr].countP (fun e => decide (T - 60 < e ∧ e ≤ T))) = 0 := by
          simp only [List.countP_cons, List.countP_nil, decide_eq_false hin]
          simp
        rw [h1]
        have := hbound T
        omega
    · -- all admissions lie in the past
      intro e he
      rcases List.mem_append.mp he with h | h
      · exact le_trans (hpast e h) (by linarith)
      · simp at h
        exact le_of_eq h
    · -- internal history and ghost log agree on future windows
      intro T hT
      have hLrec := hagree T (by linarith : now ≤ T)
      rw [List.filter_append]
      by_cases hw : 0 < (calculate_wait_time s c.model c.estimated c.t).1
      · have hrh : (acquire s c).request_history c.model
            = ((s.request_history c.model).filter
                (fun e => decide (c.t - 60 < e))).filter
                (fun e => decide (c.tc - 60 < e)) ++ [c.tr] := by
          simp only [acquire, calculate_wait_time_snd, if_pos hw, record_admission]
          simp [clean_old_entries, Function.update_apply]
        rw [hrh, List.filter_append,
          filter_recent_absorb _ c.tc T (by linarith),
          filter_recent_absorb _ c.t T (by linarith), hLrec]
      · have hrh : (acquire s c).request_history c.model
            = (s.request_history c.model).filter
                (fun e => decide (c.t - 60 < e)) ++ [c.tr] := by
          simp only [acquire, calculate_wait_time_snd, if_neg hw, record_admission]
          simp [clean_old_entries, Function.update_apply]
        rw [hrh, List.filter_append,
          filter_recent_absorb _ c.t T (by linarith), hLrec]

theorem reqInv_run (key : String) :
    ∀ (calls : List AcqCall) (s : LimiterState) (now : ℚ) (L : List ℚ),
      ReqInv key (get_rate_limit key).requests_per_minute s now L →
      WFCalls s now calls →
      ∀ T : ℚ,
        (L ++ admissionLog key calls).countP
          (fun e => decide (T - 60 < e ∧ e ≤ T))
          ≤ (get_rate_limit key).requests_per_minute := by
  intro calls
  induction calls with
  | nil =>
    intro s now L hinv _ T
    simpa [admissionLog] using hinv.1 T
  | cons c rest ih =>
    intro s now L hinv hwf T
    have hstep := reqInv_step key s now L c hinv hwf.1
    have hlog : admissionLog key (c :: rest)
        = (if c.model = key then [c.tr] else []) ++ admissionLog key rest := by
      by_cases h : c.model = key
      · simp [admissionLog, List.filter_cons, h]
      · simp [admissionLog, List.filter_cons, h]
    rw [hlog, ← List.append_assoc]
    exact ih (acquire s c) c.tr (L ++ if c.model = key then [c.tr] else [])
      hstep hwf.2 T

theorem swrGo_methods (url : String) (trace : ℕ → AttemptEvent) (retries : ℕ) :
    ∀ rem el,
      (swrGo url trace retries rem el).methods_tried = {ScrapingMethod.requests} ∧
      (swrGo url trace retries rem el).final_method = ScrapingMethod.requests := by
  intro rem
  induction rem with
  | zero => intro el; exact ⟨rfl, rfl⟩
  | succ n ih =>
    intro el
    simp only [swrGo]
    cases htr : trace (retries - (n + 1)) with
    | exc msg st dur =>
      simp only
      split
      · exact ⟨rfl, rfl⟩
      · exact ih _
    | resp status body finalUrl dur =>
      simp only
      split
      · exact ⟨rfl, rfl⟩
      · split
        · exact ⟨rfl, rfl⟩
        · split
          · split
            · exact ⟨rfl, rfl⟩
            · exact ih _
          · exact ⟨rfl, rfl⟩

theorem swrGo_attempts (url : String) (trace : ℕ → AttemptEvent) (retries : ℕ)
    (hre : 1 ≤ retries) :
    ∀ rem el, 1 ≤ (swrGo url trace retries rem el).attempts := by
  intro rem
  induction rem with
  | zero => intro el; exact hre
  | succ n ih =>
    intro el
    simp only [swrGo]
    cases htr : trace (retries - (n + 1)) with
    | exc msg st dur =>
      simp only
      split
      · simp
      · exact ih _
    | resp status body finalUrl dur =>
      simp only
      split
      · simp
      · split
        · simp
        · split
          · split
            · simp
            · exact ih _
          · simp

theorem swrGo_404_failure (url : String) (trace : ℕ → AttemptEvent) (retries : ℕ) :
    ∀ rem el, (swrGo url trace retries rem el).status_code = some 404 →
      (swrGo url trace retries rem el).success = false := by
  intro rem
  induction rem with
  | zero => intro el _; rfl
  | succ n ih =>
    intro el
    simp only [swrGo]
    cases htr : trace (retries - (n + 1)) with
    | exc msg st dur =>
      simp only
      split
      · intro _; rfl
      · exact ih _
    | resp status body finalUrl dur =>
      simp only
      split
      · intro _; rfl
      · split
        · intro _; rfl
        · split
          · split
            · intro _; rfl
            · exact ih _
          · intro h
            simp at h
            omega

theorem swrGo_all_exc (url : String) (trace : ℕ → AttemptEvent) (retries : ℕ)
    (hexc : ∀ n, ∃ msg st d, trace n = AttemptEvent.exc msg st d) :
    ∀ rem el, (swrGo url trace retries rem el).success = false ∧
      ((swrGo url trace retries rem el).error_reason).isSome = true := by
  intro rem
  induction rem with
  | zero => intro el; exact ⟨rfl, rfl⟩
  | succ n ih =>
    intro el
    obtain ⟨msg, st, d, htr⟩ := hexc (retries - (n + 1))
    simp only [swrGo, htr]
    split
    · exact ⟨rfl, rfl⟩
    · exact ih _

theorem swrGo_bot_flagged (url : String) (trace : ℕ → AttemptEvent)
    (retries : ℕ) (status : ℤ) (body finalUrl : String) (dur : ℚ)
    (hall : ∀ n, trace n = AttemptEvent.resp status body finalUrl dur)
    (h404 : ¬ status = 404) (h400 : ¬ 400 ≤ status)
    (hbot : is_bot_detected body = true) :
    ∀ rem el, 1 ≤ rem →
      PageIssue.bot_detected ∈ (swrGo url trace retries rem el).page_issues ∧
      (swrGo url trace retries rem el).success = false := by
  intro rem
  induction rem with
  | zero => intro el h; omega
  | succ n ih =>
    intro el _
    simp only [swrGo, hall (retries - (n + 1))]
    rw [if_neg h404, if_neg h400, if_pos hbot]
    by_cases h0 : n = 0
    · subst h0
      simp
    · rw [if_neg h0]
      exact ih _ (by omega)

theorem firecrawl_shape (key : Option String) (url : String) (waitDur : ℚ)
    (ev : FirecrawlEvent) :
    (scrape_with_firecrawl key url waitDur ev).methods_tried
      = {ScrapingMethod.firecrawl} ∧
    (scrape_with_firecrawl key url waitDur ev).final_method
      = ScrapingMethod.firecrawl ∧
    (scrape_with_firecrawl key url waitDur ev).attempts = 1 := by
  cases key with
  | none => exact ⟨rfl, rfl, rfl⟩
  | some k => cases ev <;> exact ⟨rfl, rfl, rfl⟩

theorem captcha_present_of_indicator (body ind : String)
    (hmem : ∃ g ∈ captcha_indicators, ind ∈ g.2)
    (hsub : containsSub ind.data (lowerChars body) = true) :
    (is_captcha_present body).present = true := by
  obtain ⟨g, hg, hi⟩ := hmem
  simp only [is_captcha_present, decide_eq_true_eq]
  rw [List.length_pos]
  apply List.ne_nil_of_mem (a := ind)
  rw [List.mem_flatten]
  refine ⟨g.2.filter (fun i => containsSub i.data (lowerChars body)), ?_, ?_⟩
  · exact List.mem_map.mpr ⟨g, hg, rfl⟩
  · rw [List.mem_filter]
    exact ⟨hi, hsub⟩

/-! ## Claim theorems -/

/-- Claim C3: starting from a fresh limiter, for every resource key and every
clock-respecting sequence of `acquire(key, estimatedCost)` calls (the clock
is monotone and each admission is recorded only after the computed wait has
elapsed), the number of recorded admissions for the key whose timestamps lie
in any trailing 60-second slice `(T - 60, T]` never exceeds the key's
configured requests-per-minute limit. -/
theorem rate_limiter_window_bound (key : String) (t0 T : ℚ)
    (calls : List AcqCall)
    (hwf : WFCalls LimiterState.init t0 calls) :
    (admissionLog key calls).countP (fun e => decide (T - 60 < e ∧ e ≤ T))
      ≤ (get_rate_limit key).requests_per_minute := by
  have hinit : ReqInv key (get_rate_limit key).requests_per_minute
      LimiterState.init t0 [] := by
    refine ⟨fun T => by simp, fun e he => by simp at he, fun T _ => ?_⟩
    simp [LimiterState.init]
  have h := reqInv_run key calls LimiterState.init t0 [] hinit hwf T
  simpa using h

/-- Witness for C3: a concrete single-call run for key `"gpt-4"` stays within
the configured limit on the window ending at `T = 30`. -/
theorem rate_limiter_window_bound_witness :
    (admissionLog "gpt-4" [⟨"gpt-4", 100, 0, 0, 0⟩]).countP
      (fun e => decide ((30 : ℚ) - 60 < e ∧ e ≤ 30))
      ≤ (get_rate_limit "gpt-4").requests_per_minute := by
  have hrl : get_rate_limit "gpt-4" = ⟨500, 10000, 10000, 100000⟩ := by decide
  have hw : (calculate_wait_time LimiterState.init "gpt-4" 100 0).1 = 0 := by
    norm_num [calculate_wait_time, clean_old_entries, LimiterState.init,
      Function.update_apply, hrl]
  exact rate_limiter_window_bound "gpt-4" 0 30 [⟨"gpt-4", 100, 0, 0, 0⟩]
    ⟨⟨le_refl 0, le_refl 0, le_refl 0, by rw [hw]; norm_num⟩, trivial⟩

/-- Claim C9: the derived counters of the rate limiter always equal the
histories they summarize — `current_requests[key]` is the length of
`request_history[key]` and `current_tokens[key]` is the sum of the costs in
`token_history[key]` — in the initial state, and this coherence is preserved
by the lazy purge (`_clean_old_entries`), by `acquire`, by
`get_usage_stats`, and by `update_actual_tokens` under the precondition that
its `estimated` argument equals the cost recorded in the key's most recent
history entry. -/
theorem rate_limiter_counters_coherent :
    Coherent LimiterState.init ∧
    ∀ s : LimiterState, Coherent s →
      (∀ model t, Coherent (clean_old_entries s model t)) ∧
      (∀ c, Coherent (acquire s c)) ∧
      (∀ model t, Coherent (get_usage_stats s model t).2) ∧
      (∀ model actual estimated ts,
        (s.token_history model).getLast? = some (ts, estimated) →
        Coherent (update_actual_tokens s model actual estimated)) := by
  constructor
  · intro key; simp [LimiterState.init]
  · intro s h
    refine ⟨fun model t => coherent_clean s model t h,
            fun c => coherent_acquire s c h,
            fun model t => ?_,
            fun model actual estimated ts hlast =>
              coherent_update s model actual estimated ts hlast h⟩
    rw [get_usage_stats_snd]
    exact coherent_clean s model t h

/-- Witness for C9: coherence holds concretely after one `acquire` on the
fresh limiter. -/
theorem rate_limiter_counters_coherent_witness :
    Coherent (acquire LimiterState.init ⟨"gpt-4", 100, 0, 0, 0⟩) :=
  (rate_limiter_counters_coherent.2 LimiterState.init
    rate_limiter_counters_coherent.1).2.1 ⟨"gpt-4", 100, 0, 0, 0⟩

/-- Claim C5: after `update_actual_tokens(key, actual, estimated)` for the
most recent admitted call (the last entry of the key's window history, whose
recorded cost is `estimated`), the window's tracked cost
`current_tokens[key]` equals the sum of the costs of the entries still in
the window history, the most recent entry now carries the actual cost (same
timestamp), every earlier entry is untouched, and the request history is
untouched — so no stale estimate for that call remains in the window
computation. -/
theorem update_actual_cost_window (s : LimiterState) (key : String)
    (actual estimated : ℤ) (ts : ℚ)
    (hlast : (s.token_history key).getLast? = some (ts, estimated))
    (hcoh : s.current_tokens key = ((s.token_history key).map Prod.snd).sum) :
    (update_actual_tokens s key actual estimated).token_history key
      = (s.token_history key).dropLast ++ [(ts, actual)] ∧
    (update_actual_tokens s key actual estimated).current_tokens key
      = (((update_actual_tokens s key actual estimated).token_history key).map
          Prod.snd).sum ∧
    (update_actual_tokens s key actual estimated).request_history
      = s.request_history := by
  have hne : s.token_history key ≠ [] := by
    intro h0; rw [h0] at hlast; simp at hlast
  have hgl : (s.token_history key).getLast hne = (ts, estimated) := by
    rw [List.getLast?_eq_getLast _ hne] at hlast
    exact Option.some.inj hlast
  have hdecomp : (s.token_history key).dropLast ++ [(ts, estimated)]
      = s.token_history key := by
    conv_rhs => rw [← List.dropLast_append_getLast hne]
    rw [hgl]
  have hsum : ((s.token_history key).map Prod.snd).sum
      = (((s.token_history key).dropLast).map Prod.snd).sum + estimated := by
    conv_lhs => rw [← hdecomp]
    simp
  refine ⟨?_, ?_, ?_⟩
  · simp [update_actual_tokens, hlast, Function.update_apply]
  · simp only [update_actual_tokens, hlast, Function.update_apply]
    simp only [if_true]
    rw [hcoh, hsum]
    simp only [List.map_append, List.sum_append, List.map_cons, List.map_nil,
      List.sum_cons, List.sum_nil, add_zero]
    ring
  · simp [update_actual_tokens, hlast]

/-- Witness for C5: updating the only admitted call for key `"m"` from its
estimate `50` to the actual cost `80` leaves the window history `[(0, 80)]`
and the tracked cost `80`. -/
theorem update_actual_cost_window_witness :
    (update_actual_tokens wTokState "m" 80 50).token_history "m"
      = [((0 : ℚ), (80 : ℤ))] ∧
    (update_actual_tokens wTokState "m" 80 50).current_tokens "m" = 80 := by
  have h := update_actual_cost_window wTokState "m" 80 50 0
    (by simp [wTokState]) (by simp [wTokState])
  refine ⟨by simpa [wTokState] using h.1, ?_⟩
  have h2 := h.2.1
  rw [h.1] at h2
  simpa [wTokState] using h2

/-- Claim C1: `scrape_url` is a total function into `ScrapeResult` — per-URL
failures are values, never exceptions.  A DIRECT loop in which every attempt
raises `requests.RequestException` still returns a single failure
`ScrapeResult`, and every Firecrawl provider exception or malformed response
is wrapped into a failure `ScrapeResult` with status 500. -/
theorem scrape_url_failures_are_values (key : Option String) (url : String)
    (trace : ℕ → AttemptEvent) (retries : ℕ) (fcWait : ℚ) (fev : FirecrawlEvent)
    (hexc : ∀ n, ∃ msg st d, trace n = AttemptEvent.exc msg st d) :
    (∀ method, ∃ r : ScrapeResult,
      scrape_url key url method trace retries fcWait fev = r) ∧
    ((scrape_url key url ScrapingMethod.requests trace retries fcWait fev).success
      = false ∧
     ((scrape_url key url ScrapingMethod.requests trace retries
        fcWait fev).error_reason).isSome = true) ∧
    (∀ errType msg d,
      (scrape_url key url ScrapingMethod.firecrawl trace retries fcWait
        (FirecrawlEvent.exc errType msg d)).success = false ∧
      (scrape_url key url ScrapingMethod.firecrawl trace retries fcWait
        (FirecrawlEvent.exc errType msg d)).status_code = some 500) ∧
    (∀ d,
      (scrape_url key url ScrapingMethod.firecrawl trace retries fcWait
        (FirecrawlEvent.malformed d)).success = false ∧
      (scrape_url key url ScrapingMethod.firecrawl trace retries fcWait
        (FirecrawlEvent.malformed d)).status_code = some 500) := by
  refine ⟨fun method => ⟨_, rfl⟩, ?_, ?_, ?_⟩
  · exact swrGo_all_exc url trace retries hexc retries 0
  · intro errType msg d
    cases key with
    | none => exact ⟨rfl, rfl⟩
    | some k => exact ⟨rfl, rfl⟩
  · intro d
    cases key with
    | none => exact ⟨rfl, rfl⟩
    | some k => exact ⟨rfl, rfl⟩

/-- Witness for C1 at a concrete all-exception trace. -/
theorem scrape_url_failures_are_values_witness :
    (scrape_url none "https://x" ScrapingMethod.requests
      (fun _ => AttemptEvent.exc "boom" none 1) 3 0
      (FirecrawlEvent.malformed 0)).success = false ∧
    (scrape_url none "https://x" ScrapingMethod.firecrawl
      (fun _ => AttemptEvent.exc "boom" none 1) 3 0
      (FirecrawlEvent.exc "ConnectTimeout" "timed out" 2)).success = false := by
  have h := scrape_url_failures_are_values none "https://x"
    (fun _ => AttemptEvent.exc "boom" none 1) 3 0 (FirecrawlEvent.malformed 0)
    (fun n => ⟨"boom", none, 1, rfl⟩)
  exact ⟨(h.2.1).1, (h.2.2.1 "ConnectTimeout" "timed out" 2).1⟩

/-- Claim C2: in AUTO mode, whenever the DIRECT attempt comes back with HTTP
status 404, `scrape_url` returns that failure immediately — `success=false`,
`statusCode=404`, `methodsTried={DIRECT}` — and the REMOTE_API fallback is
never attempted: the outcome does not depend on the Firecrawl oracle or on
whether an API key is configured. -/
theorem scrape_url_404_short_circuit (key key2 : Option String) (url : String)
    (trace : ℕ → AttemptEvent) (retries : ℕ) (fcWait fcWait2 : ℚ)
    (fev fev2 : FirecrawlEvent)
    (h404 : (scrape_with_requests url trace retries).status_code = some 404) :
    (scrape_url key url ScrapingMethod.auto trace retries fcWait fev).success
      = false ∧
    (scrape_url key url ScrapingMethod.auto trace retries fcWait fev).status_code
      = some 404 ∧
    (scrape_url key url ScrapingMethod.auto trace retries fcWait fev).methods_tried
      = {ScrapingMethod.requests} ∧
    scrape_url key url ScrapingMethod.auto trace retries fcWait fev
      = scrape_url key2 url ScrapingMethod.auto trace retries fcWait2 fev2 := by
  have hred : ∀ (k : Option String) (w : ℚ) (f : FirecrawlEvent),
      scrape_url k url ScrapingMethod.auto trace retries w f
        = scrape_with_requests url trace retries := by
    intro k w f
    simp only [scrape_url]
    rw [if_pos h404]
  rw [hred key fcWait fev, hred key2 fcWait2 fev2]
  exact ⟨swrGo_404_failure url trace retries retries 0 h404, h404,
    (swrGo_methods url trace retries retries 0).1, rfl⟩

/-- Witness for C2: a concrete 404 response short-circuits even with an API
key configured. -/
theorem scrape_url_404_short_circuit_witness :
    (scrape_url (some "KEY") "https://x/404page" ScrapingMethod.auto
      (fun _ => AttemptEvent.resp 404 "gone" "https://x/404page" 1) 3 0
      (FirecrawlEvent.success "html" 1)).success = false ∧
    (scrape_url (some "KEY") "https://x/404page" ScrapingMethod.auto
      (fun _ => AttemptEvent.resp 404 "gone" "https://x/404page" 1) 3 0
      (FirecrawlEvent.success "html" 1)).status_code = some 404 ∧
    (scrape_url (some "KEY") "https://x/404page" ScrapingMethod.auto
      (fun _ => AttemptEvent.resp 404 "gone" "https://x/404page" 1) 3 0
      (FirecrawlEvent.success "html" 1)).methods_tried
      = {ScrapingMethod.requests} := by
  have h := scrape_url_404_short_circuit (some "KEY") none "https://x/404page"
    (fun _ => AttemptEvent.resp 404 "gone" "https://x/404page" 1) 3 0 0
    (FirecrawlEvent.success "html" 1) (FirecrawlEvent.malformed 0) (by decide)
  exact ⟨h.1, h.2.1, h.2.2.1⟩

/-- Claim C6: when AUTO falls back to REMOTE_API (no 404, DIRECT failed or
was bot-flagged, API key configured), the returned outcome is the Firecrawl
outcome — same success flag, status, content and error — with
`methodsTried` the union of the DIRECT methods and REMOTE_API, `attempts`
the sum of both attempt counts, `scrapeTime` cumulative over both phases,
and `pageIssues` including the DIRECT attempt's issues. -/
theorem auto_fallback_merges_direct_metadata (k : String) (url : String)
    (trace : ℕ → AttemptEvent) (retries : ℕ) (fcWait : ℚ) (fev : FirecrawlEvent)
    (hn404 : (scrape_with_requests url trace retries).status_code ≠ some 404)
    (hfail : (scrape_with_requests url trace retries).success = false ∨
      PageIssue.bot_detected ∈ (scrape_with_requests url trace retries).page_issues) :
    (scrape_url (some k) url ScrapingMethod.auto trace retries fcWait fev).methods_tried
      = (scrape_with_requests url trace retries).methods_tried
        ∪ {ScrapingMethod.firecrawl} ∧
    (scrape_url (some k) url ScrapingMethod.auto trace retries fcWait fev).attempts
      = (scrape_with_requests url trace retries).attempts
        + (scrape_with_firecrawl (some k) url fcWait fev).attempts ∧
    (scrape_url (some k) url ScrapingMethod.auto trace retries fcWait fev).scrape_time
      = (scrape_with_requests url trace retries).scrape_time
        + (scrape_with_firecrawl (some k) url fcWait fev).scrape_time ∧
    (∀ i ∈ (scrape_with_requests url trace retries).page_issues,
      i ∈ (scrape_url (some k) url ScrapingMethod.auto trace retries fcWait fev).page_issues) ∧
    (scrape_url (some k) url ScrapingMethod.auto trace retries fcWait fev).success
      = (scrape_with_firecrawl (some k) url fcWait fev).success ∧
    (scrape_url (some k) url ScrapingMethod.auto trace retries fcWait fev).status_code
      = (scrape_with_firecrawl (some k) url fcWait fev).status_code ∧
    (scrape_url (some k) url ScrapingMethod.auto trace retries fcWait fev).content
      = (scrape_with_firecrawl (some k) url fcWait fev).content ∧
    (scrape_url (some k) url ScrapingMethod.auto trace retries fcWait fev).error_reason
      = (scrape_with_firecrawl (some k) url fcWait fev).error_reason ∧
    (scrape_url (some k) url ScrapingMethod.auto trace retries fcWait fev).final_method
      = ScrapingMethod.firecrawl := by
  have hcond : ¬((scrape_with_requests url trace retries).success = true ∧
      PageIssue.bot_detected ∉ (scrape_with_requests url trace retries).page_issues) := by
    rcases hfail with h | h
    · intro hc; rw [h] at hc; exact Bool.false_ne_true hc.1
    · intro hc; exact hc.2 h
  have hr : scrape_url (some k) url ScrapingMethod.auto trace retries fcWait fev
      = { scrape_with_firecrawl (some k) url fcWait fev with
          methods_tried := (scrape_with_firecrawl (some k) url fcWait fev).methods_tried
            ∪ (scrape_with_requests url trace retries).methods_tried
        , attempts := (scrape_with_firecrawl (some k) url fcWait fev).attempts
            + (scrape_with_requests url trace retries).attempts
        , scrape_time := (scrape_with_requests url trace retries).scrape_time
            + (scrape_with_firecrawl (some k) url fcWait fev).scrape_time
        , page_issues := (scrape_with_requests url trace retries).page_issues } := by
    simp only [scrape_url]
    rw [if_neg hn404, if_neg hcond]
  rw [hr]
  refine ⟨?_, ?_, rfl, fun i hi => hi, rfl, rfl, rfl, rfl, ?_⟩
  · rw [(firecrawl_shape (some k) url fcWait fev).1, Finset.union_comm]
  · rw [(firecrawl_shape (some k) url fcWait fev).2.2, Nat.add_comm]
  · exact (firecrawl_shape (some k) url fcWait fev).2.1

/-- Witness for C6 at a concrete bot-blocked DIRECT run followed by a
successful Firecrawl call. -/
theorem auto_fallback_merges_direct_metadata_witness :
    (scrape_url (some "KEY") "https://x" ScrapingMethod.auto
      (fun _ => AttemptEvent.resp 500 "server err" "https://x" 1) 2 5
      (FirecrawlEvent.success "html" 7)).success = true ∧
    (scrape_url (some "KEY") "https://x" ScrapingMethod.auto
      (fun _ => AttemptEvent.resp 500 "server err" "https://x" 1) 2 5
      (FirecrawlEvent.success "html" 7)).methods_tried
      = {ScrapingMethod.requests} ∪ {ScrapingMethod.firecrawl} ∧
    (scrape_url (some "KEY") "https://x" ScrapingMethod.auto
      (fun _ => AttemptEvent.resp 500 "server err" "https://x" 1) 2 5
      (FirecrawlEvent.success "html" 7)).attempts = 2 := by
  have h := auto_fallback_merges_direct_metadata "KEY" "https://x"
    (fun _ => AttemptEvent.resp 500 "server err" "https://x" 1) 2 5
    (FirecrawlEvent.success "html" 7) (by decide) (Or.inl (by decide))
  refine ⟨?_, ?_, ?_⟩
  · rw [h.2.2.2.2.1]; rfl
  · rw [h.1]; congr 1
  · rw [h.2.1]; decide

/-- Claim C7 (counterexample): the `ScrapeOutcome` invariant `attempts ≥ 1`
fails for the retry count `0`: the DIRECT loop body never runs and the
fall-through result reports `attempts = 0`. -/
theorem scrape_result_invariant_cex :
    ¬ (1 ≤ (scrape_url none "u" ScrapingMethod.requests
      (fun _ => AttemptEvent.exc "err" none 0) 0 0
      (FirecrawlEvent.malformed 0)).attempts) := by
  decide

/-- Claim C7 (amended): for every retry count of at least 1 — the source
default is 3 — every `ScrapeResult` returned by `scrape_url` satisfies the
`ScrapeOutcome` invariant: `finalMethod ∈ methodsTried` and `attempts ≥ 1`. -/
theorem scrape_result_invariant (key : Option String) (url : String)
    (method : ScrapingMethod) (trace : ℕ → AttemptEvent) (retries : ℕ)
    (fcWait : ℚ) (fev : FirecrawlEvent) (hre : 1 ≤ retries) :
    (scrape_url key url method trace retries fcWait fev).final_method
      ∈ (scrape_url key url method trace retries fcWait fev).methods_tried ∧
    1 ≤ (scrape_url key url method trace retries fcWait fev).attempts := by
  have hreq : ∀ u tr,
      (scrape_with_requests u tr retries).final_method
        ∈ (scrape_with_requests u tr retries).methods_tried ∧
      1 ≤ (scrape_with_requests u tr retries).attempts := by
    intro u tr
    obtain ⟨hm, hf⟩ := swrGo_methods u tr retries retries 0
    refine ⟨?_, swrGo_attempts u tr retries hre retries 0⟩
    show (swrGo u tr retries retries 0).final_method
      ∈ (swrGo u tr retries retries 0).methods_tried
    rw [hm, hf]
    simp
  have hfc : ∀ (k : Option String) (w : ℚ) (f : FirecrawlEvent),
      (scrape_with_firecrawl k url w f).final_method
        ∈ (scrape_with_firecrawl k url w f).methods_tried ∧
      1 ≤ (scrape_with_firecrawl k url w f).attempts := by
    intro k w f
    obtain ⟨hm, hf, ha⟩ := firecrawl_shape k url w f
    exact ⟨by rw [hm, hf]; simp, by rw [ha]⟩
  cases method with
  | requests => exact hreq url trace
  | firecrawl => exact hfc key fcWait fev
  | auto =>
    simp only [scrape_url]
    by_cases h404 : (scrape_with_requests url trace retries).status_code = some 404
    · rw [if_pos h404]
      exact hreq url trace
    · rw [if_neg h404]
      by_cases hok : (scrape_with_requests url trace retries).success = true ∧
          PageIssue.bot_detected ∉ (scrape_with_requests url trace retries).page_issues
      · rw [if_pos hok]
        exact hreq url trace
      · rw [if_neg hok]
        cases key with
        | none => exact hreq url trace
        | some k =>
          obtain ⟨hm, hf, ha⟩ := firecrawl_shape (some k) url fcWait fev
          constructor
          · show (scrape_with_firecrawl (some k) url fcWait fev).final_method
              ∈ (scrape_with_firecrawl (some k) url fcWait fev).methods_tried
                ∪ (scrape_with_requests url trace retries).methods_tried
            rw [hm, hf]
            simp
          · show 1 ≤ (scrape_with_firecrawl (some k) url fcWait fev).attempts
              + (scrape_with_requests url trace retries).attempts
            omega

/-- Witness for C7 (amended) at the default retry count. -/
theorem scrape_result_invariant_witness :
    (scrape_url none "u" ScrapingMethod.auto
      (fun _ => AttemptEvent.resp 200 "ok page" "u" 1) 3 0
      (FirecrawlEvent.malformed 0)).final_method
      ∈ (scrape_url none "u" ScrapingMethod.auto
          (fun _ => AttemptEvent.resp 200 "ok page" "u" 1) 3 0
          (FirecrawlEvent.malformed 0)).methods_tried ∧
    1 ≤ (scrape_url none "u" ScrapingMethod.auto
      (fun _ => AttemptEvent.resp 200 "ok page" "u" 1) 3 0
      (FirecrawlEvent.malformed 0)).attempts :=
  scrape_result_invariant none "u" ScrapingMethod.auto
    (fun _ => AttemptEvent.resp 200 "ok page" "u" 1) 3 0
    (FirecrawlEvent.malformed 0) (by decide)

/-- Claim C8 (counterexample): on the DIRECT path a body containing the
vendor fingerprint `"cloudflare"` (and long enough to avoid the
empty-content flag) is not flagged at all: the scrape succeeds with an empty
`pageIssues` — the CAPTCHA scan is commented out in the source and the
active bot-indicator list does not contain the vendor fingerprints. -/
theorem direct_indicator_scan_cex :
    containsSub ("cloudflare".data) (lowerChars cexBody) = true ∧
    (scrape_url none "u" ScrapingMethod.requests
      (fun _ => AttemptEvent.resp 200 cexBody "u" 0) 3 0
      (FirecrawlEvent.malformed 0)).success = true ∧
    (scrape_url none "u" ScrapingMethod.requests
      (fun _ => AttemptEvent.resp 200 cexBody "u" 0) 3 0
      (FirecrawlEvent.malformed 0)).page_issues = [] := by
  refine ⟨by decide, by decide, by decide⟩

/-- Claim C8 (amended): on the DIRECT path, for every non-4xx/5xx response
the body is scanned case-insensitively only against the two active
bot-detection indicators, and a matching body is flagged BOT_DETECTED in the
outcome; the vendor-fingerprint lists — Cloudflare, reCAPTCHA, hCaptcha,
Incapsula, generic "verify you are human" phrasing — live in the separate
classifier `is_captcha_present`, which does detect them case-insensitively
but is not invoked anywhere on the DIRECT path. -/
theorem direct_indicator_scan (body : String) :
    (containsSub ("pardon our interruption".data) (lowerChars body) = true →
      is_bot_detected body = true) ∧
    (∀ url trace retries status finalUrl dur fcWait fev,
      1 ≤ retries →
      (∀ n : ℕ, trace n = AttemptEvent.resp status body finalUrl dur) →
      ¬ status = 404 → ¬ 400 ≤ status → is_bot_detected body = true →
      PageIssue.bot_detected ∈
        (scrape_url none url ScrapingMethod.requests trace retries fcWait
          fev).page_issues) ∧
    (containsSub ("cloudflare".data) (lowerChars body) = true →
      (is_captcha_present body).present = true) ∧
    (containsSub ("recaptcha".data) (lowerChars body) = true →
      (is_captcha_present body).present = true) ∧
    (containsSub ("hcaptcha".data) (lowerChars body) = true →
      (is_captcha_present body).present = true) ∧
    (containsSub ("incapsula".data) (lowerChars body) = true →
      (is_captcha_present body).present = true) ∧
    (containsSub ("verify you are human".data) (lowerChars body) = true →
      (is_captcha_present body).present = true) := by
  refine ⟨?_, ?_, ?_, ?_, ?_, ?_, ?_⟩
  · intro h
    simp only [is_bot_detected, bot_indicators, List.any_cons, List.any_nil]
    rw [h]
    rfl
  · intro url trace retries status finalUrl dur fcWait fev hre hall h404 h400 hbot
    exact (swrGo_bot_flagged url trace retries status body finalUrl dur hall
      h404 h400 hbot retries 0 hre).1
  · exact fun h => captcha_present_of_indicator body "cloudflare" (by decide) h
  · exact fun h => captcha_present_of_indicator body "recaptcha" (by decide) h
  · exact fun h => captcha_present_of_indicator body "hcaptcha" (by decide) h
  · exact fun h => captcha_present_of_indicator body "incapsula" (by decide) h
  · exact fun h =>
      captcha_present_of_indicator body "verify you are human" (by decide) h

/-- Witness for C8 (amended): a body matching the active indicator is
flagged on the DIRECT path, and `is_captcha_present` fires on a cloudflare
fingerprint. -/
theorem direct_indicator_scan_witness :
    PageIssue.bot_detected ∈
      (scrape_url none "u" ScrapingMethod.requests
        (fun _ => AttemptEvent.resp 200 "Pardon Our Interruption..." "u" 1) 3 0
        (FirecrawlEvent.malformed 0)).page_issues ∧
    (is_captcha_present "... cloudflare ...").present = true := by
  have h := direct_indicator_scan "Pardon Our Interruption..."
  have h2 := direct_indicator_scan "... cloudflare ..."
  refine ⟨?_, h2.2.2.1 (by decide)⟩
  exact h.2.1 "u" (fun _ => AttemptEvent.resp 200 "Pardon Our Interruption..." "u" 1)
    3 200 "u" 1 0 (FirecrawlEvent.malformed 0) (by decide) (fun n => rfl)
    (by decide) (by decide) (h.1 (by decide))

/-- Claim C4: cache round-trip.  A successful `store_html(url, c)` followed
by `get_cached_html(url)` returns exactly `c`; and for a url that no put and
no import ever seeded, `get_cached_html` returns `None`: the fresh cache
holds nothing for it, stores for other urls and arbitrary gets keep it
unseeded, and a get on an unseeded url misses. -/
theorem cache_round_trip (hash : String → String) (dir : String)
    (s : CacheState) (url content : String) (md : Option CacheMeta)
    (t1 t2 : ℚ) :
    (get_cached_html (store_html hash dir s url content md t1 StoreEvent.ok).2
      url t2).1 = some content ∧
    (∀ s0 : CacheState, s0.memory_cache url = none → s0.db url = none →
      (get_cached_html s0 url t2).1 = none) ∧
    (CacheState.init.memory_cache url = none ∧ CacheState.init.db url = none) ∧
    (∀ (s0 : CacheState) (url2 c2 : String) (md2 : Option CacheMeta) (t : ℚ)
        (ev : StoreEvent), url2 ≠ url →
      s0.memory_cache url = none → s0.db url = none →
      (store_html hash dir s0 url2 c2 md2 t ev).2.memory_cache url = none ∧
      (store_html hash dir s0 url2 c2 md2 t ev).2.db url = none) ∧
    (∀ (s0 : CacheState) (url2 : String) (t : ℚ),
      s0.memory_cache url = none → s0.db url = none →
      (get_cached_html s0 url2 t).2.memory_cache url = none ∧
      (get_cached_html s0 url2 t).2.db url = none) := by
  refine ⟨?_, ?_, ⟨rfl, rfl⟩, ?_, ?_⟩
  · -- round trip: the memory layer holds the stored content
    simp [store_html, get_cached_html, Function.update_apply]
  · intro s0 hm hd
    simp [get_cached_html, hm, hd]
  · intro s0 url2 c2 md2 t ev hne hm hd
    have hne2 : url ≠ url2 := fun h => hne h.symm
    cases ev with
    | fileWriteFails => exact ⟨hm, hd⟩
    | dbWriteFails => exact ⟨hm, hd⟩
    | ok => simp [store_html, Function.update_apply, hne2, hm, hd]
  · intro s0 url2 t hm hd
    by_cases hu : url2 = url
    · subst hu
      simp [get_cached_html, hm, hd]
    · have hu2 : url ≠ url2 := fun h => hu h.symm
      have hmemu : ∀ s1 : CacheState,
          (update_access_stats s1 url2 t).memory_cache = s1.memory_cache := by
        intro s1
        simp only [update_access_stats]
        cases s1.db url2 <;> rfl
      have hdbu : ∀ s1 : CacheState, s1.db url = none →
          (update_access_stats s1 url2 t).db url = none := by
        intro s1 h1
        simp only [update_access_stats]
        cases hr : s1.db url2 with
        | none => exact h1
        | some row => simp [Function.update_apply, hu2, h1]
      simp only [get_cached_html]
      cases hmem : s0.memory_cache url2 with
      | some c =>
        simp only
        rw [hmemu]
        exact ⟨hm, hdbu s0 hd⟩
      | none =>
        simp only
        cases hrow : s0.db url2 with
        | none => exact ⟨hm, hd⟩
        | some row =>
          simp only
          cases hfile : s0.files row.file_path with
          | none => exact ⟨hm, hd⟩
          | some c =>
            simp only
            rw [hmemu]
            constructor
            · simp [Function.update_apply, hu2, hm]
            · exact hdbu _ hd

/-- Witness for C4 at a concrete url and content. -/
theorem cache_round_trip_witness :
    (get_cached_html (store_html id "d" CacheState.init "u" "c" none 0
      StoreEvent.ok).2 "u" 1).1 = some "c" ∧
    (get_cached_html CacheState.init "u" 1).1 = none := by
  have h := cache_round_trip id "d" CacheState.init "u" "c" none 0 1
  exact ⟨h.1, h.2.1 CacheState.init rfl rfl⟩

/-- Claim C10: `store_html` never raises — on a content-file write failure or
an index upsert failure it returns `False` and leaves the in-memory map
completely unchanged (the memory entry is installed only after both the file
write and the index upsert succeed), and on success it returns `True`. -/
theorem store_html_failure_behaviour (hash : String → String) (dir : String)
    (s : CacheState) (url content : String) (md : Option CacheMeta) (t : ℚ) :
    (store_html hash dir s url content md t StoreEvent.fileWriteFails).1
      = false ∧
    (store_html hash dir s url content md t
      StoreEvent.fileWriteFails).2.memory_cache = s.memory_cache ∧
    (store_html hash dir s url content md t StoreEvent.dbWriteFails).1
      = false ∧
    (store_html hash dir s url content md t
      StoreEvent.dbWriteFails).2.memory_cache = s.memory_cache ∧
    (store_html hash dir s url content md t
      StoreEvent.dbWriteFails).2.db = s.db ∧
    (store_html hash dir s url content md t StoreEvent.ok).1 = true ∧
    (store_html hash dir s url content md t StoreEvent.ok).2.memory_cache url
      = some content :=
  ⟨rfl, rfl, rfl, rfl, rfl, rfl, by simp [store_html, Function.update_apply]⟩

end Specbook
